import Mathlib

set_option maxHeartbeats 1000000

/-!
Shallow embedding of the hashvatar library (hash.ts, color.ts, dither.ts,
gradient.ts, index.ts) together with proofs about the claims of its
natural-language specification.

Modelling conventions:
* JavaScript strings are lists of UTF-16 code units (Fin 65536).
* Exact integer arithmetic (the 32-bit wrapped operations of the seed
  generator) is carried out on unsigned 32-bit representatives in Nat.
* The one floating-point operation on the seeding path whose result is not
  exact, the plain multiplication inside fnv1a, is modelled with an explicit
  round-to-nearest-even at 53 significand bits (f64round).
* Decimal literals and seed arithmetic elsewhere are modelled as exact
  rationals; transcendental color math is modelled over the reals.
* A JavaScript number that can be NaN is modelled by the type JSNum.
-/

namespace Hashvatar

/-- UTF-16 code unit: the element type of a JavaScript string. -/
abbrev CodeUnit := Fin 65536

/-- JavaScript string, as a finite sequence of UTF-16 code units. -/
abbrev JSStr := List CodeUnit

/-- Builds a string from numeric code points (helper for concrete inputs). -/
def S (l : List Nat) : JSStr := l.map (fun n => ⟨n % 65536, Nat.mod_lt n (by norm_num)⟩)

/-- White-space code points recognised by String.prototype.trim and by the
    regular-expression class \s (ECMAScript WhiteSpace and LineTerminator). -/
def isWsCode (n : Nat) : Bool :=
  decide (n = 9 ∨ n = 10 ∨ n = 11 ∨ n = 12 ∨ n = 13 ∨ n = 32 ∨ n = 160 ∨
    n = 5760 ∨ (8192 ≤ n ∧ n ≤ 8202) ∨ n = 8232 ∨ n = 8233 ∨ n = 8239 ∨
    n = 8287 ∨ n = 12288 ∨ n = 65279)

/-- White space test on a code unit. -/
def isWs (c : CodeUnit) : Bool := isWsCode c.val

/-- ASCII simple case mapping on a code point (A-Z to a-z). -/
def lowerVal (n : Nat) : Nat := if 65 ≤ n ∧ n ≤ 90 then n + 32 else n

theorem lowerVal_lt {n : Nat} (h : n < 65536) : lowerVal n < 65536 := by
  unfold lowerVal; split <;> omega

/-- Case mapping on a code unit. -/
def lowerCU (c : CodeUnit) : CodeUnit := ⟨lowerVal c.val, lowerVal_lt c.isLt⟩

/-- Modelled host function String.prototype.toLowerCase, restricted to the
    ASCII simple case mapping. -/
def jsToLower (s : JSStr) : JSStr := s.map lowerCU

/-- Modelled host function String.prototype.trim: strips white space from both
    ends. -/
def jsTrim (s : JSStr) : JSStr :=
  ((s.dropWhile isWs).reverse.dropWhile isWs).reverse

theorem lowerVal_idem (n : Nat) : lowerVal (lowerVal n) = lowerVal n := by
  unfold lowerVal
  by_cases h : 65 ≤ n ∧ n ≤ 90
  · simp only [if_pos h]
    have h2 : ¬ (65 ≤ n + 32 ∧ n + 32 ≤ 90) := by omega
    simp only [if_neg h2]
  · simp only [if_neg h]

theorem lowerCU_idem (c : CodeUnit) : lowerCU (lowerCU c) = lowerCU c := by
  apply Fin.ext
  exact lowerVal_idem c.val

theorem isWs_lowerCU (c : CodeUnit) : isWs (lowerCU c) = isWs c := by
  show isWsCode (lowerVal c.val) = isWsCode c.val
  unfold lowerVal
  split
  · rename_i h
    simp only [isWsCode, decide_eq_decide]
    omega
  · rfl

theorem jsToLower_idem (s : JSStr) : jsToLower (jsToLower s) = jsToLower s := by
  unfold jsToLower
  rw [List.map_map]
  exact List.map_congr_left (fun a _ => lowerCU_idem a)

theorem dropWhile_map_comm (p : CodeUnit → Bool) (f : CodeUnit → CodeUnit)
    (hp : ∀ c, p (f c) = p c) (l : JSStr) :
    (l.map f).dropWhile p = (l.dropWhile p).map f := by
  induction l with
  | nil => rfl
  | cons a t ih =>
    simp only [List.map_cons, List.dropWhile_cons, hp a]
    by_cases h : p a
    · simp [h, ih]
    · simp [h]

theorem jsToLower_jsTrim (s : JSStr) : jsToLower (jsTrim s) = jsTrim (jsToLower s) := by
  unfold jsTrim jsToLower
  rw [dropWhile_map_comm isWs lowerCU isWs_lowerCU s,
      ← List.map_reverse, dropWhile_map_comm isWs lowerCU isWs_lowerCU,
      ← List.map_reverse]

theorem dropWhile_head_false (p : CodeUnit → Bool) (l : JSStr) :
    ∀ a t, l.dropWhile p = a :: t → p a = false := by
  induction l with
  | nil => intro a t h; simp at h
  | cons x xs ih =>
    intro a t h
    by_cases hx : p x
    · rw [List.dropWhile_cons, if_pos hx] at h
      exact ih a t h
    · rw [List.dropWhile_cons, if_neg hx] at h
      cases h
      simpa using hx

theorem dropWhile_append_singleton (p : CodeUnit → Bool) (a : CodeUnit)
    (h : p a = false) (l : JSStr) :
    (l ++ [a]).dropWhile p = l.dropWhile p ++ [a] := by
  induction l with
  | nil => simp [List.dropWhile_cons, h]
  | cons x t ih =>
    by_cases hx : p x
    · simp [List.dropWhile_cons, hx, ih]
    · simp [List.dropWhile_cons, hx]

theorem jsTrim_idem (s : JSStr) : jsTrim (jsTrim s) = jsTrim s := by
  rcases E : s.dropWhile isWs with _ | ⟨a, t⟩
  · simp [jsTrim, E]
  · have ha : isWs a = false := dropWhile_head_false isWs s a t E
    have hrev : (a :: t).reverse = t.reverse ++ [a] := by simp
    have h1 : jsTrim s = a :: (t.reverse.dropWhile isWs).reverse := by
      unfold jsTrim
      rw [E, hrev, dropWhile_append_singleton isWs a ha]
      simp
    rcases E2 : t.reverse.dropWhile isWs with _ | ⟨b, u⟩
    · rw [h1, E2]
      unfold jsTrim
      simp [List.dropWhile_cons, ha]
    · have hb : isWs b = false := dropWhile_head_false isWs t.reverse b u E2
      rw [h1, E2]
      unfold jsTrim
      rw [List.dropWhile_cons, if_neg (by simp [ha])]
      have : ((a :: (b :: u).reverse).reverse : JSStr) = (b :: u) ++ [a] := by simp
      rw [this, dropWhile_append_singleton isWs a ha,
          List.dropWhile_cons, if_neg (by simp [hb])]
      simp

/-! Seed generator (hash.ts). -/

/-- Wraps an exact integer to its unsigned 32-bit representative. -/
def u32 (n : Nat) : Nat := n % 4294967296

/-- Base-two logarithm by structural recursion on a fuel bound (n itself
    suffices), so that concrete evaluations reduce definitionally; agrees
    with the usual floor log2 for every n. -/
def log2fuel : Nat → Nat → Nat
  | 0, _ => 0
  | fuel + 1, n => if 2 ≤ n then log2fuel fuel (n / 2) + 1 else 0

/-- Floor base-two logarithm. -/
def log2N (n : Nat) : Nat := log2fuel n n

/-- Round an exact nonnegative integer to the nearest IEEE-754 double
    (round half to even at 53 significand bits). -/
def f64roundNat (n : Nat) : Nat :=
  if n < 9007199254740992 then n
  else
    let b := log2N n
    let sh := b - 52
    let q := n / 2 ^ sh
    let r := n % 2 ^ sh
    let half := 2 ^ (sh - 1)
    let q2 := if half < r then q + 1 else if r < half then q else if q % 2 = 0 then q else q + 1
    q2 * 2 ^ sh

/-- Round an exact integer to the nearest IEEE-754 double; IEEE rounding is
    symmetric under negation. -/
def f64round (z : Int) : Int :=
  if z < 0 then -(f64roundNat (-z).toNat : Int) else (f64roundNat z.toNat : Int)

/-- Signed 32-bit view (ToInt32) of an exact integer. -/
def toI32 (z : Int) : Int :=
  let m := z.emod 4294967296
  if m < 2147483648 then m else m - 4294967296

/-- One step of fnv1a from hash.ts: hash ^= code; hash = (hash * 0x01000193) >>> 0.
    The multiplication is JavaScript float multiplication on the signed 32-bit
    value of hash, so its exact product is rounded to double precision before
    ToUint32 is applied. -/
def fnv1aStep (hash : Nat) (c : CodeUnit) : Nat :=
  let x := hash ^^^ c.val
  ((f64round (toI32 x * 16777619)).emod 4294967296).toNat

/-- fnv1a from hash.ts: 32-bit FNV-1a over the UTF-16 code units, initial
    value 0x811c9dc5. -/
def fnv1a (s : JSStr) : Nat := s.foldl fnv1aStep 2166136261

/-- One call of the Mulberry32 generator from hash.ts, acting on unsigned
    32-bit representatives: s = (s + 0x6d2b79f5) | 0, two xor-shift/multiply
    mixing rounds via Math.imul, output (t ^ (t >>> 14)) >>> 0. All those
    operations are exact on 32-bit values; the final division by 2^32 is also
    exact and is applied in hashToSeeds. -/
def mulberryNext (s : Nat) : Nat × Nat :=
  let s1 := u32 (s + 1831565813)
  let t1 := u32 ((s1 ^^^ (s1 >>> 15)) * (s1 ||| 1))
  let t2 := u32 (t1 + u32 ((t1 ^^^ (t1 >>> 7)) * (t1 ||| 61))) ^^^ t1
  (s1, t2 ^^^ (t2 >>> 14))

/-- Draws count successive raw 32-bit outputs starting from a given state
    (the Array.from callback calling rng() count times in order). -/
def rngOutputs : Nat → Nat → List Nat
  | _, 0 => []
  | s, n + 1 =>
    let p := mulberryNext s
    p.2 :: rngOutputs p.1 n

/-- hashToSeeds from hash.ts: normalize the input (toLowerCase then trim),
    hash it with fnv1a, seed Mulberry32 with the result and draw count values,
    each scaled into [0,1) by the exact division by 2^32. -/
def hashToSeeds (s : JSStr) (count : Nat) : List ℚ :=
  (rngOutputs (fnv1a (jsTrim (jsToLower s))) count).map
    (fun (o : Nat) => (o : ℚ) / 4294967296)

theorem u32_lt (n : Nat) : u32 n < 4294967296 := Nat.mod_lt _ (by norm_num)

theorem xor_lt_u32 {a b : Nat} (ha : a < 4294967296) (hb : b < 4294967296) :
    a ^^^ b < 4294967296 := by
  have h32 : (4294967296 : Nat) = 2 ^ 32 := by norm_num
  rw [h32] at ha hb ⊢
  exact Nat.xor_lt_two_pow ha hb

theorem mulberry_out_lt (s : Nat) : (mulberryNext s).2 < 4294967296 := by
  have main : ∀ t1 A : Nat, t1 < 4294967296 → A < 4294967296 →
      (A ^^^ t1) ^^^ ((A ^^^ t1) >>> 14) < 4294967296 := by
    intro t1 A h1 hA
    have hT2 : A ^^^ t1 < 4294967296 := xor_lt_u32 hA h1
    have hsh : (A ^^^ t1) >>> 14 ≤ A ^^^ t1 := by
      rw [Nat.shiftRight_eq_div_pow]; exact Nat.div_le_self _ _
    exact xor_lt_u32 hT2 (lt_of_le_of_lt hsh hT2)
  exact main _ _ (u32_lt _) (u32_lt _)

theorem rngOutputs_length (s n : Nat) : (rngOutputs s n).length = n := by
  induction n generalizing s with
  | zero => rfl
  | succ k ih => simp [rngOutputs, ih]

theorem rngOutputs_mem_lt (s n : Nat) : ∀ o ∈ rngOutputs s n, o < 4294967296 := by
  induction n generalizing s with
  | zero => intro o ho; simp [rngOutputs] at ho
  | succ k ih =>
    intro o ho
    simp only [rngOutputs, List.mem_cons] at ho
    rcases ho with h | h
    · rw [h]; exact mulberry_out_lt s
    · exact ih _ o h

/-- Membership test for the unit interval on a rational seed value. -/
def seedInUnit (q : ℚ) : Bool := decide (0 ≤ q) && decide (q < 1)

/-- C1. For every string s and every count n, hashToSeeds s n returns exactly
    n values, and every value lies in the half-open interval [0,1). -/
theorem hashToSeeds_length_and_range (s : JSStr) (n : Nat) :
    (hashToSeeds s n).length = n ∧ (hashToSeeds s n).all seedInUnit = true := by
  constructor
  · unfold hashToSeeds
    rw [List.length_map, rngOutputs_length]
  · rw [List.all_eq_true]
    intro q hq
    unfold hashToSeeds at hq
    rw [List.mem_map] at hq
    obtain ⟨o, ho, rfl⟩ := hq
    have hlt : o < 4294967296 := rngOutputs_mem_lt _ _ o ho
    simp only [seedInUnit, Bool.and_eq_true, decide_eq_true_eq]
    constructor
    · exact div_nonneg (by exact_mod_cast Nat.zero_le o) (by norm_num)
    · rw [div_lt_one (by norm_num)]
      exact_mod_cast hlt

/-- C2. hashToSeeds is invariant under normalizing its input: for every string
    s and every n it agrees with hashToSeeds on both the lowercased-then-trimmed
    and the trimmed-then-lowercased form of s; in particular the string " S "
    and the string "s" give identical seed sequences. -/
theorem hashToSeeds_normalize_invariant (s : JSStr) (n : Nat) :
    hashToSeeds s n = hashToSeeds (jsToLower (jsTrim s)) n ∧
    hashToSeeds s n = hashToSeeds (jsTrim (jsToLower s)) n ∧
    hashToSeeds (S [32, 83, 32]) n = hashToSeeds (S [115]) n := by
  have key1 : jsTrim (jsToLower (jsToLower (jsTrim s))) = jsTrim (jsToLower s) := by
    rw [jsToLower_idem, jsToLower_jsTrim, jsTrim_idem]
  have key2 : jsTrim (jsToLower (jsTrim (jsToLower s))) = jsTrim (jsToLower s) := by
    rw [jsToLower_jsTrim, jsToLower_idem, jsTrim_idem]
  refine ⟨?_, ?_, ?_⟩
  · unfold hashToSeeds
    rw [key1]
  · unfold hashToSeeds
    rw [key2]
  · have h : jsTrim (jsToLower (S [32, 83, 32])) = jsTrim (jsToLower (S [115])) := by decide
    unfold hashToSeeds
    rw [h]

/-! JavaScript numbers that may be NaN, and the color data model (color.ts). -/

/-- A JavaScript number as it occurs on the color path: NaN or a finite value
    modelled as a real. -/
inductive JSNum where
  | nan : JSNum
  | fin (x : ℝ) : JSNum

/-- Addition with NaN propagation. -/
def jadd : JSNum → JSNum → JSNum
  | .fin a, .fin b => .fin (a + b)
  | _, _ => .nan

/-- Subtraction with NaN propagation. -/
def jsub : JSNum → JSNum → JSNum
  | .fin a, .fin b => .fin (a - b)
  | _, _ => .nan

/-- Multiplication with NaN propagation. -/
def jmul : JSNum → JSNum → JSNum
  | .fin a, .fin b => .fin (a * b)
  | _, _ => .nan

/-- Math.max: NaN wins. -/
def jmax : JSNum → JSNum → JSNum
  | .fin a, .fin b => .fin (max a b)
  | _, _ => .nan

/-- Math.min: NaN wins. -/
def jmin : JSNum → JSNum → JSNum
  | .fin a, .fin b => .fin (min a b)
  | _, _ => .nan

/-- Truncation toward zero of a real value. -/
noncomputable def rtrunc (x : ℝ) : ℤ := if x < 0 then -⌊-x⌋ else ⌊x⌋

/-- JavaScript remainder a % b on finite values (truncated division, sign of
    the dividend). -/
noncomputable def jsModR (a b : ℝ) : ℝ := a - b * rtrunc (a / b)

/-- JavaScript remainder on possibly-NaN values; a zero divisor gives NaN. -/
noncomputable def jmod : JSNum → JSNum → JSNum
  | .fin a, .fin b => if b = 0 then .nan else .fin (jsModR a b)
  | _, _ => .nan

/-- Truncation toward zero of a rational value. -/
def qtrunc (q : ℚ) : ℤ := if q < 0 then -⌊-q⌋ else ⌊q⌋

/-- JavaScript remainder on exactly-representable rational values (all its
    uses here have a nonzero literal divisor). -/
def jsModQ (a b : ℚ) : ℚ := a - b * qtrunc (a / b)

/-- The OklchColor record of color.ts: lightness, chroma, hue. Components are
    JavaScript numbers and can be NaN (for example via parseFloat). -/
structure OklchColor where
  l : JSNum
  c : JSNum
  h : JSNum

/-- Default color used to make list indexing total at call sites where the
    source index is provably in range. -/
def defaultOklch : OklchColor := ⟨.fin 0, .fin 0, .fin 0⟩

/-! Character classes and modelled host parsing functions. -/

def isDigitCU (c : CodeUnit) : Bool := decide (48 ≤ c.val ∧ c.val ≤ 57)

def isDotCU (c : CodeUnit) : Bool := decide (c.val = 46)

def isDigitDot (c : CodeUnit) : Bool := isDigitCU c || isDotCU c

def isHexDigitCU (c : CodeUnit) : Bool :=
  decide ((48 ≤ c.val ∧ c.val ≤ 57) ∨ (97 ≤ c.val ∧ c.val ≤ 102) ∨ (65 ≤ c.val ∧ c.val ≤ 70))

def isAsciiAlpha (c : CodeUnit) : Bool :=
  decide ((65 ≤ c.val ∧ c.val ≤ 90) ∨ (97 ≤ c.val ∧ c.val ≤ 122))

def digitVal (c : CodeUnit) : Nat := c.val - 48

def hexDigitVal (c : CodeUnit) : Nat :=
  if c.val ≤ 57 then c.val - 48 else if c.val ≤ 70 then c.val - 55 else c.val - 87

/-- The code unit of the number sign. -/
def hashCU : CodeUnit := ⟨35, by norm_num⟩

/-- The code unit of the percent sign. -/
def pctCU : CodeUnit := ⟨37, by norm_num⟩

/-- Modelled host function parseFloat, on the strings it receives here
    (regex-group contents made of digits and dots, possibly with a trailing
    percent sign): longest decimal prefix, none models NaN. Decimal values
    are modelled exactly as rationals. -/
def parseFloatQ (s : JSStr) : Option ℚ :=
  let intPart := s.takeWhile isDigitCU
  let rest := s.drop intPart.length
  let fracPart := match rest with
    | c :: r => if isDotCU c then r.takeWhile isDigitCU else []
    | [] => []
  if intPart = [] ∧ fracPart = [] then none
  else
    let iv : ℚ := intPart.foldl (fun acc c => acc * 10 + (digitVal c : ℚ)) 0
    let fv : ℚ :=
      (fracPart.foldl (fun acc c => acc * 10 + (digitVal c : ℚ)) 0) / 10 ^ fracPart.length
    some (iv + fv)

/-- Modelled host function parseInt with radix 16: skip leading white space,
    an optional sign, an optional 0x prefix, then the longest prefix of hex
    digits; none models NaN. The exact integer is rounded to double
    precision because parseInt returns a JavaScript number. -/
def parseIntHex (s : JSStr) : Option ℤ :=
  let t := s.dropWhile isWs
  let sign : ℤ := match t with
    | c :: _ => if c.val = 45 then -1 else 1
    | [] => 1
  let t1 := match t with
    | c :: r => if c.val = 45 ∨ c.val = 43 then r else c :: r
    | [] => ([] : JSStr)
  let t2 := match t1 with
    | a :: b :: r => if a.val = 48 ∧ (b.val = 120 ∨ b.val = 88) then r else a :: b :: r
    | other => other
  let digits := t2.takeWhile isHexDigitCU
  if digits = [] then none
  else some (f64round (sign * (digits.foldl (fun acc c => acc * 16 + (hexDigitVal c : ℤ)) 0)))

/-- String.prototype.replace with a plain-string pattern removes only the
    first occurrence of the target. -/
def removeFirst (target : Nat) : JSStr → JSStr
  | [] => []
  | c :: r => if c.val = target then r else c :: removeFirst target r

/-- hexToRgb from color.ts: strip the first number sign, duplicate each digit
    of a 3-character form, parseInt base 16 (a NaN result reads as 0 under
    the bitwise operators), then extract bytes with shifts and masks.
    Arithmetic right shift is floor division and masking with 255 is emod 256
    on the signed 32-bit value. -/
def hexToRgb (hex : JSStr) : ℤ × ℤ × ℤ :=
  let clean := removeFirst 35 hex
  let full := if clean.length = 3 then clean.flatMap (fun c => [c, c]) else clean
  let v : ℤ := match parseIntHex full with
    | none => 0
    | some z => toI32 z
  ((v.fdiv 65536).emod 256, (v.fdiv 256).emod 256, v.emod 256)

/-! Color space conversion (transcendental float math, modelled over ℝ). -/

/-- Math.cbrt: real cube root with sign. -/
noncomputable def cbrtR (x : ℝ) : ℝ :=
  if x < 0 then -((-x) ^ ((1 : ℝ) / 3)) else x ^ ((1 : ℝ) / 3)

/-- Math.atan2 via the complex argument (range from -pi exclusive to pi). -/
noncomputable def atan2R (y x : ℝ) : ℝ := Complex.arg ⟨x, y⟩

/-- linearize from color.ts: inverse sRGB gamma on a byte value. -/
noncomputable def linearize (c : ℝ) : ℝ :=
  let s := c / 255
  if s ≤ 0.04045 then s / 12.92 else ((s + 0.055) / 1.055) ^ (2.4 : ℝ)

/-- rgbToOklch from color.ts: linearized sRGB, XYZ, LMS cube roots, Oklab,
    then polar chroma and hue (hue folded into [0,360) by adding 360 and
    taking the JavaScript remainder). -/
noncomputable def rgbToOklch (r g b : ℝ) : OklchColor :=
  let rl := linearize r
  let gl := linearize g
  let bl := linearize b
  let x := 0.4124564 * rl + 0.3575761 * gl + 0.1804375 * bl
  let y := 0.2126729 * rl + 0.7151522 * gl + 0.0721750 * bl
  let z := 0.0193339 * rl + 0.1191920 * gl + 0.9503041 * bl
  let lm := cbrtR (0.8189330101 * x + 0.3618667424 * y - 0.1288597137 * z)
  let mm := cbrtR (0.0329845436 * x + 0.9293118715 * y + 0.0361456387 * z)
  let sm := cbrtR (0.0482003018 * x + 0.2643662691 * y + 0.6338517070 * z)
  let L := 0.2104542553 * lm + 0.7936177850 * mm - 0.0040720468 * sm
  let a := 1.9779984951 * lm - 2.4285922050 * mm + 0.4505937099 * sm
  let bk := 0.0259040371 * lm + 0.7827717662 * mm - 0.8086757660 * sm
  ⟨.fin L, .fin (Real.sqrt (a * a + bk * bk)),
   .fin (jsModR (atan2R bk a * 180 / Real.pi + 360) 360)⟩

/-! Tone parsing (parseTone from color.ts). -/

/-- Test for the anchored regex accepting one or more ASCII letters. -/
def alphaToken (t : JSStr) : Bool := !t.isEmpty && t.all isAsciiAlpha

/-- Test for the anchored case-insensitive regex accepting three to six hex
    digits. -/
def hexToken (t : JSStr) : Bool :=
  decide (3 ≤ t.length) && decide (t.length ≤ 6) && t.all isHexDigitCU

/-- Matches the oklch literal pattern at the start of l: the letters of oklch
    case-insensitively and an opening parenthesis, optional white space, a
    first group of digits and dots with an optional percent sign, mandatory
    white space, a second group, mandatory white space, a third group,
    optional white space and a closing parenthesis. Greedy matching without
    backtracking is exact because the character classes involved are pairwise
    disjoint (keeping an unfollowable percent sign cannot be repaired by
    giving it back, since the following mandatory white space would then have
    to match the percent sign itself). -/
def oklchMatchAt (l : JSStr) : Option (JSStr × JSStr × JSStr) :=
  match l with
  | c1 :: c2 :: c3 :: c4 :: c5 :: c6 :: rest =>
    if lowerVal c1.val = 111 ∧ lowerVal c2.val = 107 ∧ lowerVal c3.val = 108 ∧
       lowerVal c4.val = 99 ∧ lowerVal c5.val = 104 ∧ c6.val = 40 then
      let r0 := rest.dropWhile isWs
      let g1 := r0.takeWhile isDigitDot
      if g1 = [] then none else
      let r1 := r0.drop g1.length
      let pct : Bool := match r1 with
        | c :: _ => c.val = 37
        | [] => false
      let g1p := if pct then g1 ++ [pctCU] else g1
      let r1p := if pct then r1.drop 1 else r1
      let w1 := r1p.takeWhile isWs
      if w1 = [] then none else
      let r2 := r1p.drop w1.length
      let g2 := r2.takeWhile isDigitDot
      if g2 = [] then none else
      let r3 := r2.drop g2.length
      let w2 := r3.takeWhile isWs
      if w2 = [] then none else
      let r4 := r3.drop w2.length
      let g3 := r4.takeWhile isDigitDot
      if g3 = [] then none else
      let r5 := r4.drop g3.length
      let r6 := r5.dropWhile isWs
      match r6 with
      | c :: _ => if c.val = 41 then some (g1p, g2, g3) else none
      | [] => none
    else none
  | _ => none

/-- Unanchored search: try the pattern at every start position in order. -/
def oklchFind : JSStr → Option (JSStr × JSStr × JSStr)
  | [] => none
  | c :: r =>
    match oklchMatchAt (c :: r) with
    | some g => some g
    | none => oklchFind r

/-- Turns the optional rational of a modelled parse into a JavaScript number. -/
def jOfOpt (q : Option ℚ) : JSNum :=
  match q with
  | none => .nan
  | some v => .fin (v : ℝ)

/-- The environment parseTone sees: when present, a browser document whose
    canvas resolves a named color token to the sRGB bytes read back from a
    painted pixel; none models typeof document undefined. -/
def NamedEnv := Option (JSStr → ℤ × ℤ × ℤ)

/-- The string black, compared against after lowercasing in the named branch. -/
def strBlack : JSStr := S [98, 108, 97, 99, 107]

/-- parseTone from color.ts, with the branch order of the source: named
    colors (alphabetic tokens, resolved through the canvas when a document
    exists, kept when some channel is positive or the token is black), then
    hex forms (every token starting with a number sign, or 3 to 6 bare hex
    digits), then the oklch literal, otherwise null. -/
noncomputable def parseTone (env : NamedEnv) (tone : JSStr) : Option OklchColor :=
  let t := jsTrim tone
  if alphaToken t then
    match env with
    | none => none
    | some resolve =>
      let rgb := resolve t
      if 0 < rgb.1 + rgb.2.1 + rgb.2.2 ∨ jsToLower t = strBlack then
        some (rgbToOklch (rgb.1 : ℝ) (rgb.2.1 : ℝ) (rgb.2.2 : ℝ))
      else none
  else if t.head? = some hashCU ∨ hexToken t then
    let rgb := hexToRgb (if t.head? = some hashCU then t else hashCU :: t)
    some (rgbToOklch (rgb.1 : ℝ) (rgb.2.1 : ℝ) (rgb.2.2 : ℝ))
  else
    match oklchFind t with
    | some (g1, g2, g3) =>
      let lJ := if g1.getLast? = some pctCU
        then (match parseFloatQ g1 with
          | none => JSNum.nan
          | some v => JSNum.fin ((v : ℝ) / 100))
        else jOfOpt (parseFloatQ g1)
      some ⟨lJ, jOfOpt (parseFloatQ g2), jOfOpt (parseFloatQ g3)⟩
    | none => none

/-- The token #zz (a number sign followed by two non-hex letters). -/
def strHashZZ : JSStr := S [35, 122, 122]

/-- The token #12. -/
def strHash12 : JSStr := S [35, 49, 50]

/-- The oklch literal with only two components. -/
def strOklch2 : JSStr := S [111, 107, 108, 99, 104, 40, 48, 46, 53, 32, 48, 46, 50, 41]

/-- The oklch literal with four components. -/
def strOklch4 : JSStr :=
  S [111, 107, 108, 99, 104, 40, 48, 46, 53, 32, 48, 46, 50, 32, 51, 48, 32, 52, 48, 41]

/-- C3 counterexample. parseTone applied to the hash-prefixed token #zz,
    whose characters are not hexadecimal digits, does not return none: the
    hex branch accepts every token starting with a number sign, parseInt
    yields NaN, and the bitwise byte extraction reads NaN as 0, so the token
    parses as a color (black) instead of being rejected. -/
theorem parseTone_hash_invalid_not_none : parseTone none strHashZZ ≠ none := by
  have h : (parseTone none strHashZZ).isSome = true := rfl
  intro hc
  rw [hc] at h
  simp at h

/-- C3 amended. Every token whose trimmed form starts with a number sign is
    accepted by parseTone (invalid digits or arity included, via the lenient
    parseInt decoding), while an oklch literal with the wrong number of
    components (two, or four) is rejected with none like any other
    unrecognized form. -/
theorem parseTone_amended (env : NamedEnv) (t : JSStr) :
    ((jsTrim t).head? = some hashCU → (parseTone env t).isSome = true) ∧
    parseTone env strOklch2 = none ∧ parseTone env strOklch4 = none := by
  refine ⟨?_, ?_, ?_⟩
  · intro h
    rcases E : jsTrim t with _ | ⟨a, r⟩
    · rw [E] at h; simp at h
    · rw [E] at h
      simp only [List.head?_cons, Option.some_inj] at h
      subst h
      have halpha : alphaToken (hashCU :: r) = false := by
        simp only [alphaToken, List.all_cons]
        have hh : isAsciiAlpha hashCU = false := by decide
        simp [hh]
      unfold parseTone
      rw [E]
      simp only [halpha, Bool.false_eq_true, if_false, List.head?_cons]
      simp
  · rfl
  · rfl

/-- C3 amended, witness at concrete inputs. -/
theorem parseTone_amended_witness :
    (parseTone none strHash12).isSome = true ∧
    parseTone none strOklch2 = none ∧ parseTone none strOklch4 = none :=
  ⟨(parseTone_amended none strHash12).1 (by decide),
   (parseTone_amended none strOklch2).2.1,
   (parseTone_amended none strOklch4).2.2⟩

/-! Color derivation (generateColor from color.ts, hashToColors from index.ts). -/

/-- generateColor from color.ts. The three seeds come from the seed stream
    and are exactly representable rationals; the optional tone list and base
    hue carry possibly-NaN JavaScript numbers. The tone index is
    floor(seed n) taken with the JavaScript remainder by n; it selects an
    existing entry whenever the seed lies in [0,1), which holds at every call
    site, so the total getD default is never selected there. -/
noncomputable def generateColor (seed lSeed cSeed : ℚ) (tones : Option (List OklchColor))
    (isSecondary : Bool) (baseHue : Option JSNum) : OklchColor :=
  match tones with
  | some (t0 :: ts) =>
    let n := (t0 :: ts).length
    let ti := ((⌊seed * (n : ℚ)⌋).tmod (n : ℤ)).toNat
    let tone := (t0 :: ts).getD ti defaultOklch
    let h := jmod (jadd (jadd tone.h (.fin (((seed * 2 - 1) * 30 : ℚ) : ℝ))) (.fin 360)) (.fin 360)
    let l : JSNum := if isSecondary then .fin ((0.22 + lSeed * 0.18 : ℚ) : ℝ)
                     else .fin ((0.52 + lSeed * 0.22 : ℚ) : ℝ)
    let c := if isSecondary
      then jadd (jmax (jmul tone.c (.fin 0.5)) (.fin 0.06)) (.fin ((cSeed * 0.08 : ℚ) : ℝ))
      else jadd (jmax (jmul tone.c (.fin 0.8)) (.fin 0.14)) (.fin ((cSeed * 0.10 : ℚ) : ℝ))
    ⟨l, jmin c (.fin 0.37), h⟩
  | _ =>
    let hue : JSNum := baseHue.getD (.fin ((seed * 360 : ℚ) : ℝ))
    let h := jmod (jadd hue (.fin 360)) (.fin 360)
    let l : JSNum := if isSecondary then .fin ((0.18 + cSeed * 0.20 : ℚ) : ℝ)
                     else .fin ((0.55 + lSeed * 0.22 : ℚ) : ℝ)
    let c : JSNum := if isSecondary then .fin ((0.08 + lSeed * 0.12 : ℚ) : ℝ)
                     else .fin ((0.18 + cSeed * 0.18 : ℚ) : ℝ)
    ⟨l, jmin c (.fin 0.37), h⟩

/-- The successfully parsed tones of hashToColors (empty when tones are
    absent). -/
noncomputable def parsedTones (env : NamedEnv) (tones : Option (List JSStr)) :
    List OklchColor :=
  match tones with
  | none => []
  | some ts => ts.filterMap (parseTone env)

/-- The tone list hashToColors passes on: undefined both when no tones were
    supplied and when every supplied token failed to parse. -/
noncomputable def toneListOf (env : NamedEnv) (tones : Option (List JSStr)) :
    Option (List OklchColor) :=
  match tones with
  | none => none
  | some ts =>
    match ts.filterMap (parseTone env) with
    | [] => none
    | l => some l

/-- The base hue hashToColors computes when no tone survives: the first seed
    value scaled to degrees and reduced by the JavaScript remainder (NaN when
    the seed list is empty, since indexing past the end gives undefined whose
    product is NaN); undefined when a tone list is passed on. -/
noncomputable def baseHueOf (env : NamedEnv) (hash : JSStr) (tones : Option (List JSStr))
    (count : Nat) : Option JSNum :=
  match toneListOf env tones with
  | some _ => none
  | none => some (match (hashToSeeds hash (count * 3)).head? with
      | none => JSNum.nan
      | some s0 => .fin ((jsModQ (s0 * 360) 360 : ℚ) : ℝ))

/-- hashToColors from index.ts: draw count times 3 seed values, parse the
    tones, compute the shared monotone base hue when no tone survives, and
    derive count colors, index 0 primary and the others secondary. In the
    source the seed list, tone list and base hue are bound once before the
    loop; all involved functions are pure, so inlining them is equal. -/
noncomputable def hashToColors (env : NamedEnv) (hash : JSStr) (tones : Option (List JSStr))
    (count : Nat) : List OklchColor :=
  (List.range count).map (fun i =>
    generateColor ((hashToSeeds hash (count * 3)).getD (i * 3) 0)
      ((hashToSeeds hash (count * 3)).getD (i * 3 + 1) 0)
      ((hashToSeeds hash (count * 3)).getD (i * 3 + 2) 0)
      (toneListOf env tones) (decide (0 < i)) (baseHueOf env hash tones count))

/-- Chroma at most 0.37, compared as JavaScript would: false for NaN. -/
def chromaOk : JSNum → Prop
  | .nan => False
  | .fin x => x ≤ 0.37

theorem getD_mem_or_default {α : Type} (l : List α) (i : Nat) (d : α) :
    l.getD i d ∈ l ∨ l.getD i d = d := by
  rw [List.getD_eq_getElem?_getD]
  rcases E : l[i]? with _ | a
  · right; simp
  · left; simpa using List.getElem?_mem E

theorem generateColor_chroma (seed lSeed cSeed : ℚ) (tones : Option (List OklchColor))
    (isSecondary : Bool) (baseHue : Option JSNum)
    (ht : ∀ t ∈ tones.getD [], t.c ≠ JSNum.nan) :
    chromaOk (generateColor seed lSeed cSeed tones isSecondary baseHue).c := by
  match tones with
  | none =>
    show chromaOk (jmin _ (.fin 0.37))
    cases isSecondary <;>
      · simp only [Bool.false_eq_true, if_false, if_true, jmin]
        exact min_le_right _ _
  | some [] =>
    show chromaOk (jmin _ (.fin 0.37))
    cases isSecondary <;>
      · simp only [Bool.false_eq_true, if_false, if_true, jmin]
        exact min_le_right _ _
  | some (t0 :: ts) =>
    have ht2 : ∀ t ∈ (t0 :: ts), t.c ≠ JSNum.nan := by simpa using ht
    have key : ∀ tone : OklchColor, tone.c ≠ JSNum.nan → ∀ q a b : ℝ,
        chromaOk (jmin (jadd (jmax (jmul tone.c (.fin a)) (.fin b)) (.fin q)) (.fin 0.37)) := by
      intro tone htc q a b
      rcases Ec : tone.c with _ | x
      · exact absurd Ec htc
      · simp only [jmul, jmax, jadd, jmin, chromaOk]
        exact min_le_right _ _
    have hTone : ((t0 :: ts).getD (((⌊seed * ((t0 :: ts).length : ℚ)⌋).tmod
        ((t0 :: ts).length : ℤ)).toNat) defaultOklch).c ≠ JSNum.nan := by
      rcases getD_mem_or_default (t0 :: ts)
          (((⌊seed * ((t0 :: ts).length : ℚ)⌋).tmod ((t0 :: ts).length : ℤ)).toNat)
          defaultOklch with hmem | hdef
      · exact ht2 _ hmem
      · rw [hdef]; simp [defaultOklch]
    cases isSecondary
    · exact key _ hTone _ _ _
    · exact key _ hTone _ _ _

/-- C5 amended. Every palette entry produced by hashToColors has chroma at
    most 0.37, provided no successfully parsed tone carries a NaN chroma
    component (which only an oklch literal with a digitless dot component
    can produce). -/
theorem hashToColors_chroma_le (env : NamedEnv) (hash : JSStr)
    (tones : Option (List JSStr)) (count : Nat)
    (ht : (parsedTones env tones).Forall (fun t => t.c ≠ JSNum.nan)) :
    (hashToColors env hash tones count).Forall (fun col => chromaOk col.c) := by
  rw [List.forall_iff_forall_mem] at ht ⊢
  intro col hcol
  unfold hashToColors at hcol
  rw [List.mem_map] at hcol
  obtain ⟨i, hi, rfl⟩ := hcol
  apply generateColor_chroma
  intro tt htt
  rcases Etl : toneListOf env tones with _ | l
  · rw [Etl] at htt; simp at htt
  · rw [Etl] at htt
    simp only [Option.getD_some] at htt
    have hl : l = parsedTones env tones := by
      cases tones with
      | none => simp [toneListOf] at Etl
      | some ts =>
        rcases E : ts.filterMap (parseTone env) with _ | ⟨a, r⟩
        · have hnone : toneListOf env (some ts) = none := by simp [toneListOf, E]
          rw [hnone] at Etl
          simp at Etl
        · have hsome : toneListOf env (some ts) = some (a :: r) := by simp [toneListOf, E]
          rw [hsome] at Etl
          have h2 := Option.some_inj.mp Etl
          rw [← h2]
          simp [parsedTones, E]
    rw [hl] at htt
    exact ht tt htt

/-- The one-character string x. -/
def strX : JSStr := S [120]

/-- C5 amended, witness: with no tones supplied the hypothesis holds
    trivially and both derived chromas are at most 0.37. -/
theorem hashToColors_chroma_le_witness :
    (hashToColors none strX none 2).Forall (fun col => chromaOk col.c) :=
  hashToColors_chroma_le none strX none 2 (by simp [parsedTones, List.Forall])

/-- The oklch literal whose chroma component is a bare dot. -/
def strOklchDot : JSStr := S [111, 107, 108, 99, 104, 40, 48, 46, 53, 32, 46, 32, 51, 48, 41]

/-- The color the oklch bare-dot literal parses to: finite lightness and hue,
    NaN chroma. -/
noncomputable def nanTone : OklchColor :=
  ⟨jOfOpt (parseFloatQ (S [48, 46, 53])), JSNum.nan, jOfOpt (parseFloatQ (S [51, 48]))⟩

theorem generateColor_singleton_nan (seed lSeed cSeed : ℚ) (t : OklchColor) (isSec : Bool)
    (bh : Option JSNum) (htc : t.c = JSNum.nan) :
    (generateColor seed lSeed cSeed (some [t]) isSec bh).c = JSNum.nan := by
  have hti : ((⌊seed * (([t] : List OklchColor).length : ℚ)⌋).tmod
      (([t] : List OklchColor).length : ℤ)).toNat = 0 := by
    have h1 : ((([t] : List OklchColor).length : Nat) : ℤ) = 1 := rfl
    rw [h1, Int.tmod_one]
    rfl
  cases isSec
  · show jmin (jadd (jmax (jmul (([t].getD (((⌊seed * (([t] : List OklchColor).length : ℚ)⌋).tmod
        (([t] : List OklchColor).length : ℤ)).toNat) defaultOklch).c) (.fin 0.8)) (.fin 0.14))
      (.fin ((cSeed * 0.10 : ℚ) : ℝ))) (.fin 0.37) = JSNum.nan
    rw [hti]
    show jmin (jadd (jmax (jmul t.c (.fin 0.8)) (.fin 0.14)) _) _ = JSNum.nan
    rw [htc]
    rfl
  · show jmin (jadd (jmax (jmul (([t].getD (((⌊seed * (([t] : List OklchColor).length : ℚ)⌋).tmod
        (([t] : List OklchColor).length : ℤ)).toNat) defaultOklch).c) (.fin 0.5)) (.fin 0.06))
      (.fin ((cSeed * 0.08 : ℚ) : ℝ))) (.fin 0.37) = JSNum.nan
    rw [hti]
    show jmin (jadd (jmax (jmul t.c (.fin 0.5)) (.fin 0.06)) _) _ = JSNum.nan
    rw [htc]
    rfl

/-- C5 counterexample. With the tone list containing the oklch literal whose
    chroma component is a bare dot, parseFloat yields NaN for the tone
    chroma, NaN propagates through the derivation (multiplication, Math.max,
    addition, and the Math.min cap all return NaN), and the resulting palette
    entry has NaN chroma, which is not at most 0.37. -/
theorem hashToColors_nan_chroma :
    ¬ (hashToColors none strX (some [strOklchDot]) 1).Forall (fun col => chromaOk col.c) := by
  intro h
  rw [List.forall_iff_forall_mem] at h
  have htl2 : toneListOf none (some [strOklchDot]) = some [nanTone] := rfl
  have hmem : generateColor ((hashToSeeds strX (1 * 3)).getD (0 * 3) 0)
      ((hashToSeeds strX (1 * 3)).getD (0 * 3 + 1) 0)
      ((hashToSeeds strX (1 * 3)).getD (0 * 3 + 2) 0)
      (toneListOf none (some [strOklchDot])) (decide (0 < 0))
      (baseHueOf none strX (some [strOklchDot]) 1) ∈
      hashToColors none strX (some [strOklchDot]) 1 := by
    unfold hashToColors
    rw [List.mem_map]
    exact ⟨0, by simp, rfl⟩
  have hx := h _ hmem
  rw [htl2] at hx
  rw [generateColor_singleton_nan _ _ _ nanTone _ _ rfl] at hx
  exact hx

theorem jsModQ_small {a b : ℚ} (h0 : 0 ≤ a) (hb : a < b) : jsModQ a b = a := by
  have hbpos : 0 < b := lt_of_le_of_lt h0 hb
  have hdiv0 : 0 ≤ a / b := div_nonneg h0 (le_of_lt hbpos)
  have hdiv1 : a / b < 1 := (div_lt_one hbpos).mpr hb
  unfold jsModQ qtrunc
  rw [if_neg (not_lt.mpr hdiv0)]
  rw [Int.floor_eq_zero_iff.mpr ⟨hdiv0, hdiv1⟩]
  push_cast
  ring

theorem jsModR_shift {x : ℝ} (h0 : 0 ≤ x) (hx : x < 360) : jsModR (x + 360) 360 = x := by
  have hge : (1 : ℝ) ≤ (x + 360) / 360 := by
    rw [le_div_iff₀ (by norm_num : (0 : ℝ) < 360)]; linarith
  have hlt : (x + 360) / 360 < 2 := by
    rw [div_lt_iff₀ (by norm_num : (0 : ℝ) < 360)]; linarith
  unfold jsModR rtrunc
  rw [if_neg (not_lt.mpr (le_trans zero_le_one hge))]
  have hfl : ⌊(x + 360) / 360⌋ = 1 := by
    rw [Int.floor_eq_iff]
    constructor
    · simpa using hge
    · push_cast
      linarith
  rw [hfl]
  push_cast
  ring

theorem generateColor_monotone_hue (seed lSeed cSeed : ℚ) (isSec : Bool) (x : ℝ)
    (hx0 : 0 ≤ x) (hx1 : x < 360) :
    (generateColor seed lSeed cSeed none isSec (some (.fin x))).h = .fin x := by
  show jmod (jadd (JSNum.fin x) (.fin 360)) (.fin 360) = .fin x
  simp only [jadd, jmod]
  rw [if_neg (by norm_num : ¬ (360 : ℝ) = 0)]
  rw [jsModR_shift hx0 hx1]

/-- C6. When no tones are supplied, or every supplied tone fails to parse,
    all palette entries derived by hashToColors carry one shared hue, the
    first seed value scaled to degrees. -/
theorem hashToColors_monotone_hue (env : NamedEnv) (hash : JSStr)
    (tones : Option (List JSStr)) (count : Nat)
    (h : tones = none ∨ parsedTones env tones = []) :
    (hashToColors env hash tones count).map (fun col => col.h) =
      List.replicate count
        (JSNum.fin (((hashToSeeds hash (count * 3)).headD 0 * 360 : ℚ) : ℝ)) := by
  have htl : toneListOf env tones = none := by
    rcases h with rfl | hp
    · rfl
    · cases tones with
      | none => rfl
      | some ts =>
        have hp2 : ts.filterMap (parseTone env) = [] := by
          simpa [parsedTones] using hp
        simp [toneListOf, hp2]
  cases count with
  | zero => simp [hashToColors]
  | succ k =>
    have hlen : (hashToSeeds hash ((k + 1) * 3)).length = (k + 1) * 3 :=
      (hashToSeeds_length_and_range hash ((k + 1) * 3)).1
    rcases E : (hashToSeeds hash ((k + 1) * 3)).head? with _ | s0
    · rw [List.head?_eq_none_iff] at E
      rw [E] at hlen
      simp at hlen
    · have hmem : s0 ∈ hashToSeeds hash ((k + 1) * 3) :=
        List.mem_of_mem_head? (by rw [E]; exact Option.mem_some_self s0)
      have hall := (hashToSeeds_length_and_range hash ((k + 1) * 3)).2
      rw [List.all_eq_true] at hall
      have hs0 := hall s0 hmem
      simp only [seedInUnit, Bool.and_eq_true, decide_eq_true_eq] at hs0
      have hq0 : (0 : ℚ) ≤ s0 * 360 := by
        have := hs0.1; positivity
      have hq1 : s0 * 360 < 360 := by
        have := hs0.2; nlinarith
      have hmod : jsModQ (s0 * 360) 360 = s0 * 360 := jsModQ_small hq0 hq1
      have hhd : (hashToSeeds hash ((k + 1) * 3)).headD 0 = s0 := by
        rw [List.headD_eq_head?_getD, E, Option.getD_some]
      have hbh : baseHueOf env hash tones (k + 1) =
          some (JSNum.fin ((s0 * 360 : ℚ) : ℝ)) := by
        unfold baseHueOf
        simp only [htl, E, hmod]
      unfold hashToColors
      rw [htl, hbh, hhd]
      rw [List.map_map]
      have hx0 : (0 : ℝ) ≤ ((s0 * 360 : ℚ) : ℝ) := by exact_mod_cast hq0
      have hx1 : ((s0 * 360 : ℚ) : ℝ) < 360 := by exact_mod_cast hq1
      rw [List.map_congr_left (fun i _ => by
        show (generateColor _ _ _ none _ (some (.fin ((s0 * 360 : ℚ) : ℝ)))).h =
          JSNum.fin ((s0 * 360 : ℚ) : ℝ)
        exact generateColor_monotone_hue _ _ _ _ _ hx0 hx1)]
      simp [List.map_const', List.length_range]

/-- C6 witness, at a concrete hash with tones absent. -/
theorem hashToColors_monotone_hue_witness :
    (hashToColors none strX none 2).map (fun col => col.h) =
      List.replicate 2 (JSNum.fin (((hashToSeeds strX (2 * 3)).headD 0 * 360 : ℚ) : ℝ)) :=
  hashToColors_monotone_hue none strX none 2 (Or.inl rfl)

/-! Hex encoding of a color (oklchToHex from color.ts) and the byte decoding
    of the dither renderer (hexToRgb from dither.ts). -/

/-- Math.cos on a JavaScript number. -/
noncomputable def jcos : JSNum → JSNum
  | .nan => .nan
  | .fin x => .fin (Real.cos x)

/-- Math.sin on a JavaScript number. -/
noncomputable def jsin : JSNum → JSNum
  | .nan => .nan
  | .fin x => .fin (Real.sin x)

/-- Math.round on a JavaScript number: half toward positive infinity; none
    models NaN. -/
noncomputable def jroundInt : JSNum → Option ℤ
  | .nan => none
  | .fin x => some ⌊x + 1 / 2⌋

/-- The toSrgb helper of oklchToHex: clamp to [0,1] with Math.max and
    Math.min (NaN propagates), then the forward sRGB gamma. -/
noncomputable def toSrgbJ (v : JSNum) : JSNum :=
  match jmax (.fin 0) (jmin (.fin 1) v) with
  | .nan => .nan
  | .fin cv => if cv ≤ 0.0031308 then .fin (cv * 12.92)
               else .fin (1.055 * cv ^ ((1 : ℝ) / 2.4) - 0.055)

/-- Hex digit character, lowercase as in Number.prototype.toString(16). -/
def hexDigitCU (n : Nat) : CodeUnit :=
  if n % 16 < 10 then ⟨48 + n % 16, by omega⟩ else ⟨87 + n % 16, by omega⟩

/-- Digits of a natural number in base 16, most significant first, by
    structural recursion on a fuel bound (the number itself suffices). -/
def natHexDigits : Nat → Nat → List CodeUnit
  | 0, _ => []
  | fuel + 1, n => if n = 0 then [] else natHexDigits fuel (n / 16) ++ [hexDigitCU (n % 16)]

/-- Number.prototype.toString with radix 16 on an integer-valued double; NaN
    prints the three letters NaN. -/
def intToHexStr (z : Option ℤ) : JSStr :=
  match z with
  | none => S [78, 97, 78]
  | some v =>
    if v = 0 then S [48]
    else if v < 0 then S [45] ++ natHexDigits v.natAbs v.natAbs
    else natHexDigits v.toNat v.toNat

/-- String.prototype.padStart to two characters with the zero digit. -/
def padStart2 (s : JSStr) : JSStr :=
  if s.length < 2 then List.replicate (2 - s.length) ⟨48, by norm_num⟩ ++ s else s

/-- oklchToHex from color.ts: Oklch to Oklab, LMS cubes, linear sRGB, gamma
    encoding, bytes rounded and printed as a number-sign-prefixed hex string
    of two characters per byte. -/
noncomputable def oklchToHex (col : OklchColor) : JSStr :=
  let hRad := jmul col.h (.fin (Real.pi / 180))
  let a := jmul col.c (jcos hRad)
  let b := jmul col.c (jsin hRad)
  let lm := jadd (jadd col.l (jmul (.fin 0.3963377774) a)) (jmul (.fin 0.2158037573) b)
  let mm := jsub (jsub col.l (jmul (.fin 0.1055613458) a)) (jmul (.fin 0.0638541728) b)
  let sm := jsub (jsub col.l (jmul (.fin 0.0894841775) a)) (jmul (.fin 1.2914855480) b)
  let lc := jmul (jmul lm lm) lm
  let mc := jmul (jmul mm mm) mm
  let sc := jmul (jmul sm sm) sm
  let rl := jadd (jsub (jmul (.fin 4.0767416621) lc) (jmul (.fin 3.3077115913) mc))
      (jmul (.fin 0.2309699292) sc)
  let gl := jsub (jadd (jmul (.fin (-1.2684380046)) lc) (jmul (.fin 2.6097574011) mc))
      (jmul (.fin 0.3413193965) sc)
  let bl := jadd (jsub (jmul (.fin (-0.0041960863)) lc) (jmul (.fin 0.7034186147) mc))
      (jmul (.fin 1.7076147010) sc)
  hashCU :: (padStart2 (intToHexStr (jroundInt (jmul (toSrgbJ rl) (.fin 255)))) ++
    padStart2 (intToHexStr (jroundInt (jmul (toSrgbJ gl) (.fin 255)))) ++
    padStart2 (intToHexStr (jroundInt (jmul (toSrgbJ bl) (.fin 255)))))

/-- hexToRgb from dither.ts: strip the first number sign, parseInt base 16
    (a NaN result reads as 0 under the bitwise operators), then extract the
    three bytes with arithmetic shifts (floor division) and masks (emod). -/
def ditherHexToRgb (hex : JSStr) : ℤ × ℤ × ℤ :=
  let v : ℤ := match parseIntHex (removeFirst 35 hex) with
    | none => 0
    | some z => toI32 z
  ((v.fdiv 65536).emod 256, (v.fdiv 256).emod 256, v.emod 256)

/-- A decoded pixel color. -/
abbrev RGB := ℤ × ℤ × ℤ

/-- The sRGB encoding the dither renderer uses for a palette entry. -/
noncomputable def encodeColor (c : OklchColor) : RGB := ditherHexToRgb (oklchToHex c)

/-! Dither renderer (dither.ts). -/

/-- The 8 by 8 Bayer threshold matrix, each level divided by 64. -/
def BAYER8 : List (List ℚ) :=
  [[0, 32, 8, 40, 2, 34, 10, 42],
   [48, 16, 56, 24, 50, 18, 58, 26],
   [12, 44, 4, 36, 14, 46, 6, 38],
   [60, 28, 52, 20, 62, 30, 54, 22],
   [3, 35, 11, 43, 1, 33, 9, 41],
   [51, 19, 59, 27, 49, 17, 57, 25],
   [15, 47, 7, 39, 13, 45, 5, 37],
   [63, 31, 55, 23, 61, 29, 53, 21]].map (fun row => row.map (fun v => v / 64))

/-- The Bayer threshold of a cell (row gy mod 8, column gx mod 8). -/
def bayerAt (gx gy : Nat) : ℚ := (BAYER8.getD (gy % 8) []).getD (gx % 8) 0

/-- Math.round on a rational (half toward positive infinity). -/
def jsRoundQ (q : ℚ) : ℤ := ⌊q + 1 / 2⌋

/-- The options record of renderDither. -/
structure DitherOptions where
  size : ℚ
  colors : List OklchColor
  dotScale : Option ℚ
  animated : Bool
  seeds : List ℚ

/-- The backing-store pixel edge: round(size times the device pixel ratio);
    the device pixel ratio is the environment value min(devicePixelRatio, 3),
    or 1 outside a window. -/
def ditherSizePx (dpr : ℚ) (size : ℚ) : ℤ := jsRoundQ (size * dpr)

/-- The cell edge in device pixels: the caller option, or
    max(2, round(size/35)) logical pixels; scaled by dpr, rounded, at
    least 1. -/
def ditherDotScale (dpr : ℚ) (o : DitherOptions) : ℤ :=
  let logical : ℚ := match o.dotScale with
    | some d => d
    | none => ((max 2 (jsRoundQ (o.size / 35)) : ℤ) : ℚ)
  max 1 (jsRoundQ (logical * dpr))

/-- Cells per axis: ceil(sizePx / dotScale) plus the one-cell padding ring on
    each side. -/
def ditherGridSize (sizePx dotScale : ℤ) : ℤ := ⌈(sizePx : ℚ) / (dotScale : ℚ)⌉ + 2

/-- Deterministic per-cell phase of the animated drift (cellPhase in
    dither.ts): exact rational arithmetic, still to be scaled by two pi. -/
def cellPhaseQ (s2 s3 : ℚ) (gx gy : Nat) : ℚ :=
  jsModQ (((gx * 31 + gy * 17 : Nat) : ℚ) * (s2 * 1000 + 1) +
    ((toI32 (qtrunc (s3 * 1000)) : ℤ) : ℚ)) 1000 / 1000

/-- Per-cell drift amplitude (cellAmp in dither.ts). -/
def cellAmpQ (s2 : ℚ) (gx gy : Nat) : ℚ :=
  0.035 + (((toI32 (qtrunc (((gx * 7 + gy * 13 : Nat) : ℚ) + s2 * 50))).tmod 55 : ℤ) : ℚ) / 1100

/-- The eased value of one grid cell (the cell-loop body of the draw function
    up to the Bayer comparison): project the cell center onto the seeded
    sweep axis, subtract the animated drift, normalize by the falloff, clamp
    to [0,1] and apply the smoothstep easing. -/
noncomputable def ditherT (sizePx dotScale : ℤ) (s0 s1 s2 s3 : ℚ) (animated : Bool)
    (phase : ℝ) (gx gy : Nat) : ℝ :=
  let nx : ℝ := ((gx : ℝ) - 1 + 0.5) / ((ditherGridSize sizePx dotScale : ℝ) - 2)
  let ny : ℝ := ((gy : ℝ) - 1 + 0.5) / ((ditherGridSize sizePx dotScale : ℝ) - 2)
  let angle : ℝ := (s0 : ℝ) * Real.pi * 2 + (if animated then phase * 0.45 else 0)
  let proj := (nx - 0.5) * Real.cos angle + (ny - 0.5) * Real.sin angle
  let drift : ℝ := if animated then
      (cellAmpQ s2 gx gy : ℝ) * Real.sin (phase * 0.3 + (cellPhaseQ s2 s3 gx gy : ℝ) *
        Real.pi * 2) +
      (cellAmpQ s2 gx gy : ℝ) * 0.55 * Real.sin (phase * 0.1 + (cellPhaseQ s2 s3 gx gy : ℝ) *
        Real.pi * 2 * 1.7) +
      0.012 * Real.sin (phase * 0.2)
    else 0
  let falloff : ℝ := ((0.55 + s1 * 0.25 : ℚ) : ℝ)
  let tRaw := (proj - drift + falloff) / (falloff * 2)
  let tClamp := max 0 (min 1 tRaw)
  tClamp * tClamp * (3 - 2 * tClamp)

/-- The guard of the pixel-write loop: a write happens only when 0 ≤ x,
    0 ≤ y, x < sizePx and y < sizePx. -/
def ditherInBounds (sizePx x y : ℤ) : Bool :=
  decide (0 ≤ x) && decide (0 ≤ y) && decide (x < sizePx) && decide (y < sizePx)

/-- The byte index written for a pixel: (y sizePx + x) times 4; channels
    idx, idx+1 and idx+2 receive the accent color, idx+3 stays 255. -/
def ditherByteIndex (sizePx x y : ℤ) : ℤ := (y * sizePx + x) * 4

/-- Paints one grid cell: the accent color is written to every in-bounds
    pixel of its dotScale by dotScale rectangle. The model is pixel-granular:
    one RGB entry stands for the three channel bytes at the byte index, and
    the alpha channel is 255 everywhere throughout. -/
def paintCell (sizePx dotScale : ℤ) (colA : RGB) (gx gy : Nat) (buf : List RGB) : List RGB :=
  (List.range dotScale.toNat).foldl (fun b (py : Nat) =>
    (List.range dotScale.toNat).foldl (fun b2 (px : Nat) =>
      if ditherInBounds sizePx (((gx : ℤ) - 1) * dotScale + (px : ℤ))
          (((gy : ℤ) - 1) * dotScale + (py : ℤ)) then
        b2.set ((ditherByteIndex sizePx (((gx : ℤ) - 1) * dotScale + (px : ℤ))
          (((gy : ℤ) - 1) * dotScale + (py : ℤ))) / 4).toNat colA
      else b2) b) buf

/-- One full frame of the dither draw function: fill the whole buffer with
    the background color, then paint the accent color over every grid cell
    whose eased value does not exceed its Bayer threshold. -/
noncomputable def ditherBuffer (sizePx dotScale : ℤ) (colA colB : RGB) (s0 s1 s2 s3 : ℚ)
    (animated : Bool) (phase : ℝ) : List RGB :=
  (List.range (ditherGridSize sizePx dotScale).toNat).foldl (fun buf gy =>
    (List.range (ditherGridSize sizePx dotScale).toNat).foldl (fun b2 gx =>
      if ditherT sizePx dotScale s0 s1 s2 s3 animated phase gx gy > (bayerAt gx gy : ℝ)
      then b2
      else paintCell sizePx dotScale colA gx gy b2) buf)
    (List.replicate (sizePx * sizePx).toNat colB)

/-- The observable outcome of renderDither: a drawn static frame, or a
    started animation loop with its cancellation handle (the two colors are
    computed during the synchronous setup either way). -/
inductive DitherOutcome where
  | staticFrame (buffer : List RGB) : DitherOutcome
  | animLoop (colA colB : RGB) : DitherOutcome

/-- renderDither from dither.ts at the level of its observable result: none
    models a thrown exception (empty palette: destructuring colors[0] inside
    oklchToHex throws; or a nonpositive backing size: createImageData throws,
    reached synchronously only on the static path). The accent color is
    palette index 0 and the background color palette index
    min(1, length - 1). -/
noncomputable def renderDither (dpr : ℚ) (o : DitherOptions) : Option DitherOutcome :=
  match o.colors with
  | [] => none
  | c0 :: _ =>
    if o.animated then
      some (.animLoop (encodeColor c0)
        (encodeColor (o.colors.getD (min 1 (o.colors.length - 1)) c0)))
    else if ditherSizePx dpr o.size ≤ 0 then none
    else some (.staticFrame (ditherBuffer (ditherSizePx dpr o.size) (ditherDotScale dpr o)
      (encodeColor c0) (encodeColor (o.colors.getD (min 1 (o.colors.length - 1)) c0))
      (o.seeds.getD 0 0) (o.seeds.getD 1 0) (o.seeds.getD 2 0) (o.seeds.getD 3 0) false 0))

/-- The pixel buffer of an outcome; empty when nothing was drawn
    synchronously. -/
def bufferOf : Option DitherOutcome → List RGB
  | some (.staticFrame b) => b
  | _ => []

/-- The accent color of a render call: palette index 0. -/
noncomputable def ditherColA (o : DitherOptions) : RGB :=
  encodeColor (o.colors.headD defaultOklch)

/-- The background color of a render call: palette index min(1, length-1). -/
noncomputable def ditherColB (o : DitherOptions) : RGB :=
  encodeColor (o.colors.getD (min 1 (o.colors.length - 1)) (o.colors.headD defaultOklch))

theorem foldl_preserve {α β : Type} (P : β → Prop) (f : β → α → β)
    (hf : ∀ b x, P b → P (f b x)) :
    ∀ (l : List α) (init : β), P init → P (l.foldl f init) := by
  intro l
  induction l with
  | nil => intro init h; simpa using h
  | cons a t ih => intro init h; exact ih (f init a) (hf init a h)

theorem paintCell_two_tone (sizePx dotScale : ℤ) (colA colB : RGB) (gx gy : Nat)
    (buf : List RGB) (hb : ∀ p ∈ buf, p = colA ∨ p = colB) :
    ∀ p ∈ paintCell sizePx dotScale colA gx gy buf, p = colA ∨ p = colB := by
  unfold paintCell
  refine foldl_preserve (fun b => ∀ p ∈ b, p = colA ∨ p = colB) _ ?_ _ _ hb
  intro b py hbp
  refine foldl_preserve (fun b => ∀ p ∈ b, p = colA ∨ p = colB) _ ?_ _ _ hbp
  intro b2 px hb2
  intro p hp
  by_cases hg : ditherInBounds sizePx (((gx : ℤ) - 1) * dotScale + px)
      (((gy : ℤ) - 1) * dotScale + py) = true
  · rw [if_pos hg] at hp
    rcases List.mem_or_eq_of_mem_set hp with hmem | heq
    · exact hb2 p hmem
    · exact Or.inl heq
  · rw [if_neg hg] at hp
    exact hb2 p hp

theorem ditherBuffer_two_tone (sizePx dotScale : ℤ) (colA colB : RGB) (s0 s1 s2 s3 : ℚ)
    (animated : Bool) (phase : ℝ) :
    ∀ p ∈ ditherBuffer sizePx dotScale colA colB s0 s1 s2 s3 animated phase,
      p = colA ∨ p = colB := by
  unfold ditherBuffer
  refine foldl_preserve (fun b => ∀ p ∈ b, p = colA ∨ p = colB) _ ?_ _ _ ?_
  · intro b gy hbp
    refine foldl_preserve (fun b => ∀ p ∈ b, p = colA ∨ p = colB) _ ?_ _ _ hbp
    intro b2 gx hb2
    by_cases hc : ditherT sizePx dotScale s0 s1 s2 s3 animated phase gx gy >
        (bayerAt gx gy : ℝ)
    · rw [if_pos hc]; exact hb2
    · rw [if_neg hc]; exact paintCell_two_tone sizePx dotScale colA colB gx gy b2 hb2
  · intro p hp
    rw [List.eq_of_mem_replicate hp]
    exact Or.inr rfl

/-- C7 amended. Every pixel of a dither render is one of the two palette
    encodings (accent index 0, background index min(1, length-1)): the
    buffer is pre-filled with the background color and only the accent color
    is painted over it, so at most two distinct colors occur. -/
theorem renderDither_at_most_two_tone (dpr : ℚ) (o : DitherOptions) :
    (bufferOf (renderDither dpr o)).Forall
      (fun p => p = ditherColA o ∨ p = ditherColB o) := by
  rw [List.forall_iff_forall_mem]
  obtain ⟨size, colors, dotScale, animated, seeds⟩ := o
  cases colors with
  | nil => intro p hp; simp [renderDither, bufferOf] at hp
  | cons c0 rest =>
    cases animated with
    | true => intro p hp; simp [renderDither, bufferOf] at hp
    | false =>
      by_cases hs : ditherSizePx dpr size ≤ 0
      · intro p hp; simp [renderDither, bufferOf, hs] at hp
      · intro p hp
        have hp2 : p ∈ ditherBuffer (ditherSizePx dpr size)
            (ditherDotScale dpr ⟨size, c0 :: rest, dotScale, false, seeds⟩)
            (encodeColor c0)
            (encodeColor ((c0 :: rest).getD (min 1 ((c0 :: rest).length - 1)) c0))
            (seeds.getD 0 0) (seeds.getD 1 0) (seeds.getD 2 0) (seeds.getD 3 0) false 0 := by
          simpa [renderDither, bufferOf, hs] using hp
        have h2 := ditherBuffer_two_tone _ _ _ _ _ _ _ _ _ _ p hp2
        simpa [ditherColA, ditherColB] using h2

theorem dedup_length_le_one {α : Type} [DecidableEq α] (l : List α) (c : α)
    (h : ∀ p ∈ l, p = c) : l.dedup.length ≤ 1 := by
  induction l with
  | nil => simp
  | cons a t ih =>
    have ha : a = c := h a (by simp)
    by_cases hm : a ∈ t
    · rw [List.dedup_cons_of_mem hm]
      exact ih (fun p hp => h p (by simp [hp]))
    · rw [List.dedup_cons_of_not_mem hm]
      have ht : t = [] := by
        cases t with
        | nil => rfl
        | cons b u =>
          exfalso
          apply hm
          have hb : b = c := h b (by simp)
          rw [ha, ← hb]
          exact List.mem_cons_self b u
      rw [ht]
      simp

/-- A concrete finite color. -/
noncomputable def cGray : OklchColor := ⟨.fin 0.5, .fin 0.1, .fin 30⟩

/-- Options of the degenerate render: size 2, the same color twice, static,
    all four seeds zero. -/
noncomputable def optsDegenerate : DitherOptions :=
  ⟨2, [cGray, cGray], none, false, [0, 0, 0, 0]⟩

theorem ditherSizePx_two : 0 < ditherSizePx 1 (2 : ℚ) := by
  unfold ditherSizePx jsRoundQ
  have h1 : (1 : ℤ) ≤ ⌊((2 : ℚ) * 1 + 1 / 2)⌋ := Int.le_floor.mpr (by norm_num)
  omega

/-- C7 counterexample. A static dither render with a two-entry palette whose
    entries are the same color draws a frame containing at most one distinct
    color, not exactly two. -/
theorem renderDither_not_exactly_two :
    (renderDither 1 optsDegenerate).isSome = true ∧
    2 ≤ optsDegenerate.colors.length ∧
    optsDegenerate.animated = false ∧
    ¬ ((bufferOf (renderDither 1 optsDegenerate)).dedup.length = 2) := by
  have hns : ¬ ditherSizePx 1 (2 : ℚ) ≤ 0 := not_le.mpr ditherSizePx_two
  have hbuf : bufferOf (renderDither 1 optsDegenerate) =
      ditherBuffer (ditherSizePx 1 2) (ditherDotScale 1 optsDegenerate)
        (encodeColor cGray) (encodeColor cGray) 0 0 0 0 false 0 := by
    simp [renderDither, optsDegenerate, bufferOf, hns]
  refine ⟨?_, by simp [optsDegenerate], rfl, ?_⟩
  · simp [renderDither, optsDegenerate, hns]
  · have hall : ∀ p ∈ bufferOf (renderDither 1 optsDegenerate), p = encodeColor cGray := by
      intro p hp
      rw [hbuf] at hp
      rcases ditherBuffer_two_tone _ _ _ _ _ _ _ _ _ _ p hp with h | h <;> exact h
    have hle := dedup_length_le_one _ _ hall
    omega

/-- C9. Every pixel write the dither draw loop performs is inside the
    sizePx by sizePx buffer: whenever the write-loop guard passes, the byte
    index addresses a full RGBA pixel within the image data (cells of the
    padding ring whose rectangles extend beyond the canvas contribute only
    skipped coordinates). -/
theorem dither_write_in_bounds (sizePx x y : ℤ)
    (h : ditherInBounds sizePx x y = true) :
    0 ≤ ditherByteIndex sizePx x y ∧
    ditherByteIndex sizePx x y + 3 < 4 * (sizePx * sizePx) := by
  simp only [ditherInBounds, Bool.and_eq_true, decide_eq_true_eq] at h
  obtain ⟨⟨⟨hx0, hy0⟩, hxs⟩, hys⟩ := h
  unfold ditherByteIndex
  have hs0 : 0 < sizePx := lt_of_le_of_lt hx0 hxs
  constructor
  · have : 0 ≤ y * sizePx := mul_nonneg hy0 (le_of_lt hs0)
    nlinarith
  · have hy1 : y ≤ sizePx - 1 := by omega
    have hx1 : x ≤ sizePx - 1 := by omega
    have hmul : y * sizePx ≤ (sizePx - 1) * sizePx :=
      mul_le_mul_of_nonneg_right hy1 (le_of_lt hs0)
    nlinarith

/-- C9 witness at a concrete size and pixel. -/
theorem dither_write_in_bounds_witness :
    ditherInBounds 4 1 1 = true ∧
    (0 ≤ ditherByteIndex 4 1 1 ∧ ditherByteIndex 4 1 1 + 3 < 4 * (4 * 4)) :=
  ⟨by decide, dither_write_in_bounds 4 1 1 (by decide)⟩

/-- C10. renderDither does not require a two-color palette: with any
    nonempty palette the only entries consulted are index 0 and index
    min(1, length - 1), so the render equals the render on the two-entry
    palette of exactly those entries (for a single-color palette the same
    color serves as accent and background), and the call completes whenever
    the palette is nonempty and, on the synchronous static path, the backing
    size is positive. -/
theorem renderDither_palette_access (dpr : ℚ) (o : DitherOptions) (c0 : OklchColor)
    (hhead : o.colors.head? = some c0) :
    renderDither dpr o = renderDither dpr
      { o with colors := [c0, o.colors.getD (min 1 (o.colors.length - 1)) c0] } ∧
    ((o.animated = true ∨ 0 < ditherSizePx dpr o.size) →
      (renderDither dpr o).isSome = true) := by
  obtain ⟨size, colors, dotScale, animated, seeds⟩ := o
  cases colors with
  | nil => simp at hhead
  | cons c rest =>
    simp only [List.head?_cons, Option.some_inj] at hhead
    subst hhead
    constructor
    · rfl
    · intro hdisj
      cases animated with
      | true => rfl
      | false =>
        rcases hdisj with ht | hpos
        · exact absurd ht (by simp)
        · have hns : ¬ ditherSizePx dpr size ≤ 0 := not_le.mpr hpos
          simp [renderDither, hns]

/-- Options with a single palette entry. -/
noncomputable def optsSingle : DitherOptions := ⟨2, [cGray], none, false, [0, 0, 0, 0]⟩

/-- C10 witness: the single-color palette renders, and equals the render with
    that color as both accent and background. -/
theorem renderDither_palette_access_witness :
    (renderDither 1 optsSingle = renderDither 1
      { optsSingle with colors := [cGray, optsSingle.colors.getD
          (min 1 (optsSingle.colors.length - 1)) cGray] }) ∧
    (renderDither 1 optsSingle).isSome = true := by
  have h := renderDither_palette_access 1 optsSingle cGray rfl
  exact ⟨h.1, h.2 (Or.inr ditherSizePx_two)⟩

/-! Gradient renderer (gradient.ts): the guard path. -/

/-- A caller-supplied drawing surface: backing sizes and an abstract content
    tag standing for the drawn pixels. -/
structure GCanvas where
  width : ℚ
  height : ℚ
  content : Nat

/-- The options record of renderGradient. -/
structure GradientOptions where
  size : ℚ
  colors : List OklchColor
  animated : Bool
  seeds : List ℚ

/-- renderGradient from gradient.ts at the level the guard claim needs: the
    palette-length guard is the first statement of the function and returns
    null before any canvas access; past the guard the canvas backing store
    is resized to size times dpr and the layered blurred polygons are drawn
    (their pixel output is summarized by an uninterpreted draw function,
    since no claim here depends on it), then either one static frame is
    drawn and null returned, or the frame loop starts and a cancellation
    handle is returned. -/
def renderGradient (draw : GradientOptions → GCanvas → Nat) (dpr : ℚ)
    (o : GradientOptions) (canvas : GCanvas) : GCanvas × Option Unit :=
  if o.colors.length < 4 then (canvas, none)
  else
    let c2 : GCanvas := ⟨o.size * dpr, o.size * dpr, draw o canvas⟩
    if o.animated then (c2, some ()) else (c2, none)

/-- C4. With fewer than four palette colors renderGradient returns no
    cancellation handle and draws nothing: the canvas comes back unchanged,
    for every size, seed list, device pixel ratio and animation flag. -/
theorem renderGradient_insufficient_palette (draw : GradientOptions → GCanvas → Nat)
    (dpr : ℚ) (o : GradientOptions) (canvas : GCanvas)
    (h : o.colors.length < 4) :
    renderGradient draw dpr o canvas = (canvas, none) := by
  unfold renderGradient
  rw [if_pos h]

/-- C4 witness: a three-color palette, animated, draws nothing and returns no
    handle. -/
theorem renderGradient_insufficient_palette_witness :
    renderGradient (fun _ _ => 0) 1
      ⟨64, [defaultOklch, defaultOklch, defaultOklch], true, []⟩ ⟨0, 0, 7⟩ =
      (⟨0, 0, 7⟩, none) :=
  renderGradient_insufficient_palette _ 1 _ _ (by simp)

end Hashvatar
